import Mathlib

/-!
Shallow embedding of the tx-engine transaction processor
(src/types.rs, src/storage.rs, src/error.rs, src/accounts.rs).

Modelling conventions:
* `ClientID` (u16) and `TransactionID` (u32) are modelled as `Nat`; no claim
  depends on their widths.
* Amounts are `u64` in the source.  We model them as `Int`: every subtraction
  performed by `process_transaction` is guarded (withdrawal checks
  `available < amount`, dispute/resolve/chargeback clamp against
  `available`/`held`), so no u64 underflow occurs, and the development proves
  the balances stay non-negative — over `Int` that is a real theorem rather
  than a vacuous fact of an unsigned type.  Overflow of u64 addition is out of
  scope of the claims (the spec declares deposits unbounded).
* `InMemoryKVStore` (a `HashMap`) is modelled as an association list where
  `set` conses in front and `get` returns the first (most recent) binding:
  this has exactly the `get`/`set` semantics of `HashMap::insert`/`get`.
* The Rust `process_transaction` mutates the stores through `&mut self` and
  returns `Result<()>`; the model threads the store state explicitly and
  returns `Except Error Unit × ManagerState` — the second component is the
  state of the two stores after the call, on error paths as well (the lazy
  account creation inside `get_account` persists even when the transaction
  subsequently fails).
-/

namespace TxEngine

/-- src/types.rs `TxType`. -/
inductive TxType where
  | Deposit
  | Withdrawal
  | Dispute
  | Resolve
  | Chargeback
deriving DecidableEq, Repr

/-- src/types.rs `Transaction` (internal representation; amount is the
fixed-point value, `None` when the row carried no amount). -/
structure Transaction where
  type_ : TxType
  client : Nat
  tx : Nat
  amount : Option Int
deriving DecidableEq, Repr

/-- src/types.rs `Account`. -/
structure Account where
  id : Nat
  available : Int
  held : Int
  total : Int
  locked : Bool
deriving DecidableEq, Repr

/-- src/types.rs `Account::new`. -/
def Account.new (id : Nat) : Account :=
  { id := id, available := 0, held := 0, total := 0, locked := false }

/-- src/error.rs `Error` (the variants the core can produce; the IO/join/kv
wrapper variants never arise in `process_transaction`). -/
inductive Error where
  | InvalidArguments
  | InsufficientFunds
  | AccountLocked
  | NotFound
deriving DecidableEq, Repr

instance {α β : Type} [DecidableEq α] [DecidableEq β] :
    DecidableEq (Except α β) := fun x y =>
  match x, y with
  | Except.ok a, Except.ok b =>
      if h : a = b then isTrue (by rw [h])
      else isFalse (fun hh => h (by cases hh; rfl))
  | Except.error a, Except.error b =>
      if h : a = b then isTrue (by rw [h])
      else isFalse (fun hh => h (by cases hh; rfl))
  | Except.ok _, Except.error _ => isFalse (fun hh => by cases hh)
  | Except.error _, Except.ok _ => isFalse (fun hh => by cases hh)

/-- src/storage.rs `InMemoryKVStore`: association list, most recent binding
first. -/
abbrev KVStore (K V : Type) : Type := List (K × V)

/-- src/storage.rs `InMemoryKVStore::get`: the current binding of `k`,
`none` (Rust `Err(Error::NotFound)`) when absent. -/
def kvGet {K V : Type} [DecidableEq K] (s : KVStore K V) (k : K) : Option V :=
  (s.find? (fun p => decide (p.1 = k))).map (fun p => p.2)

/-- src/storage.rs `InMemoryKVStore::set` (`HashMap::insert`): the new
binding shadows any previous one. -/
def kvSet {K V : Type} (s : KVStore K V) (k : K) (v : V) : KVStore K V :=
  (k, v) :: s

/-- The two stores a `Manager` owns (src/accounts.rs `Manager`):
an account store keyed by client id and a transaction ledger keyed by
transaction id. -/
structure ManagerState where
  accounts : KVStore Nat Account
  transactions : KVStore Nat Transaction
deriving DecidableEq, Repr

/-- src/accounts.rs `Manager::get_account`: load the account, lazily creating
and persisting a fresh zero account when absent (the Rust code re-`get`s after
`set`, which returns the just-inserted account). -/
def get_account (s : ManagerState) (client : Nat) : Account × ManagerState :=
  match kvGet s.accounts client with
  | some account => (account, s)
  | none =>
      let account := Account.new client
      (account, { s with accounts := kvSet s.accounts client account })

/-- src/accounts.rs `Manager::set_account`. -/
def set_account (s : ManagerState) (account : Account) : ManagerState :=
  { s with accounts := kvSet s.accounts account.id account }

/-- src/accounts.rs `Manager::process_transaction`: the main business logic.
Returns the Rust `Result<()>` together with the state of the stores after the
call. -/
def process_transaction (s : ManagerState) (tx : Transaction) :
    Except Error Unit × ManagerState :=
  let (account, s1) := get_account s tx.client
  if account.locked then
    (Except.error Error.AccountLocked, s1)
  else
    match tx.type_ with
    | TxType.Deposit =>
        match tx.amount with
        | some amount =>
            let account := { account with
              available := account.available + amount
              total := account.total + amount }
            (Except.ok (), set_account s1 account)
        | none => (Except.ok (), set_account s1 account)
    | TxType.Withdrawal =>
        match tx.amount with
        | some amount =>
            if account.available < amount then
              (Except.error Error.InsufficientFunds, s1)
            else
              let account := { account with
                available := account.available - amount
                total := account.total - amount }
              (Except.ok (), set_account s1 account)
        | none => (Except.ok (), set_account s1 account)
    | TxType.Dispute =>
        match kvGet s1.transactions tx.tx with
        | none => (Except.error Error.NotFound, s1)
        | some source_tx =>
            match source_tx.amount with
            | some amount =>
                if source_tx.type_ = TxType.Deposit then
                  -- we can only hold back as much money as there is in the account
                  let amount :=
                    if amount > account.available then account.available
                    else amount
                  let account := { account with
                    held := account.held + amount
                    available := account.available - amount }
                  (Except.ok (), set_account s1 account)
                else (Except.ok (), set_account s1 account)
            | none => (Except.ok (), set_account s1 account)
    | TxType.Resolve =>
        match kvGet s1.transactions tx.tx with
        | none => (Except.error Error.NotFound, s1)
        | some source_tx =>
            match source_tx.amount with
            | some amount =>
                if source_tx.type_ = TxType.Deposit then
                  -- release no more than is currently held
                  let amount :=
                    if amount > account.held then account.held
                    else amount
                  let account := { account with
                    held := account.held - amount
                    available := account.available + amount }
                  (Except.ok (), set_account s1 account)
                else (Except.ok (), set_account s1 account)
            | none => (Except.ok (), set_account s1 account)
    | TxType.Chargeback =>
        match kvGet s1.transactions tx.tx with
        | none => (Except.error Error.NotFound, s1)
        | some source_tx =>
            match source_tx.amount with
            | some amount =>
                if source_tx.type_ = TxType.Deposit then
                  -- take no more than is currently held
                  let amount :=
                    if amount > account.held then account.held
                    else amount
                  let account := { account with
                    held := account.held - amount
                    total := account.total - amount
                    locked := true }
                  (Except.ok (), set_account s1 account)
                else if source_tx.type_ = TxType.Withdrawal then
                  -- reverse the withdrawal; the account is NOT locked
                  let account := { account with
                    available := account.available + amount
                    total := account.total + amount }
                  (Except.ok (), set_account s1 account)
                else (Except.ok (), set_account s1 account)
            | none => (Except.ok (), set_account s1 account)

/-- Well-formed account: the balance invariant together with the u64
non-negativity of its fields. -/
def Account.ok (a : Account) : Prop :=
  a.total = a.available + a.held ∧ 0 ≤ a.available ∧ 0 ≤ a.held

instance (a : Account) : Decidable a.ok := by
  unfold Account.ok; infer_instance

/-- A transaction's amount, when present, is non-negative (it is a u64 in the
source). -/
def Transaction.wfAmount (t : Transaction) : Prop :=
  ∀ x, t.amount = some x → 0 ≤ x

instance (t : Transaction) : Decidable t.wfAmount := by
  unfold Transaction.wfAmount
  cases t.amount with
  | none => exact isTrue (by intro x h; cases h)
  | some a =>
      exact if h : 0 ≤ a then
        isTrue (by intro x hx; cases hx; exact h)
      else
        isFalse (fun hw => h (hw a rfl))

/-- Every account currently in the account store is well-formed. -/
def accountsOK (s : ManagerState) : Prop :=
  ∀ c a, kvGet s.accounts c = some a → a.ok

/-- Every transaction currently in the ledger has a non-negative amount. -/
def ledgerWF (s : ManagerState) : Prop :=
  ∀ k t, kvGet s.transactions k = some t → t.wfAmount

/-- The states of the two stores reachable in a run: starting from empty
stores, the pipeline (src/main.rs processing task) interleaves ledger writes
of transactions with calls to `process_transaction`. -/
inductive Reachable : ManagerState → Prop where
  | init : Reachable ⟨[], []⟩
  | store (s : ManagerState) (k : Nat) (t : Transaction) :
      Reachable s → t.wfAmount →
      Reachable ⟨s.accounts, kvSet s.transactions k t⟩
  | process (s : ManagerState) (tx : Transaction) :
      Reachable s → tx.wfAmount →
      Reachable (process_transaction s tx).2

/-! ### Concrete states used by the witnesses -/

/-- A deposit of 1.0000 (fixed-point 10000) by client 1, transaction id 1. -/
def depositTx : Transaction := ⟨TxType.Deposit, 1, 1, some 10000⟩

/-- The state after processing `depositTx` from empty stores. -/
def stEx : ManagerState := (process_transaction ⟨[], []⟩ depositTx).2

/-- The account produced for client 1 by `depositTx`. -/
def aEx : Account := ⟨1, 10000, 0, 10000, false⟩

/-- A dispute by a fresh client referencing a transaction id absent from the
ledger. -/
def orphanDispute : Transaction := ⟨TxType.Dispute, 7, 42, none⟩

/-- A locked account for client 1. -/
def acctLocked : Account := ⟨1, 100, 0, 100, true⟩

/-- A state whose only account is `acctLocked`. -/
def stLocked : ManagerState := ⟨[(1, acctLocked)], []⟩

/-- An unlocked account for client 1 with available 50, held 30, total 80. -/
def acctRich : Account := ⟨1, 50, 30, 80, false⟩

/-- A ledger deposit of 100 for client 1, transaction id 1. -/
def ledgerDep : Transaction := ⟨TxType.Deposit, 1, 1, some 100⟩

/-- A ledger withdrawal of 40 for client 1, transaction id 2. -/
def ledgerWd : Transaction := ⟨TxType.Withdrawal, 1, 2, some 40⟩

/-- A state with `acctRich` and both ledger entries. -/
def stRich : ManagerState := ⟨[(1, acctRich)], [(1, ledgerDep), (2, ledgerWd)]⟩

/-- An unlocked account for client 1 with nothing held. -/
def acctZeroHeld : Account := ⟨1, 50, 0, 50, false⟩

/-- A state with `acctZeroHeld` and the deposit ledger entry (never
disputed, so nothing is held). -/
def stZeroHeld : ManagerState := ⟨[(1, acctZeroHeld)], [(1, ledgerDep)]⟩

/-! ### Store lemmas -/

theorem kvGet_kvSet {K V : Type} [DecidableEq K] (l : KVStore K V) (k q : K) (v : V) :
    kvGet (kvSet l k v) q = if q = k then some v else kvGet l q := by
  by_cases h : q = k
  · subst h
    simp [kvGet, kvSet]
  · simp only [kvGet, kvSet]
    rw [List.find?_cons_of_neg]
    · simp [h]
    · simp only [decide_eq_true_eq]
      exact fun hh => h hh.symm

theorem get_account_found (s : ManagerState) (c : Nat) (a : Account)
    (h : kvGet s.accounts c = some a) : get_account s c = (a, s) := by
  unfold get_account
  rw [h]

theorem get_account_fresh (s : ManagerState) (c : Nat)
    (h : kvGet s.accounts c = none) :
    get_account s c =
      (Account.new c, ⟨kvSet s.accounts c (Account.new c), s.transactions⟩) := by
  unfold get_account
  rw [h]

theorem accountsOK_set (s : ManagerState) (a : Account)
    (hA : accountsOK s) (ha : a.ok) : accountsOK (set_account s a) := by
  intro c b hcb
  simp only [set_account] at hcb
  rw [kvGet_kvSet] at hcb
  split at hcb
  · cases hcb
    exact ha
  · exact hA _ _ hcb

/-- After any call, the second component is either the post-`get_account`
state unchanged (an error path) or that state with one account written back;
account record updates never change the `id` field. -/
theorem process_state_cases (s : ManagerState) (tx : Transaction) :
    (process_transaction s tx).2 = (get_account s tx.client).2 ∨
    ((process_transaction s tx).1 = Except.ok () ∧
      ∃ a, (process_transaction s tx).2 = set_account (get_account s tx.client).2 a ∧
        a.id = (get_account s tx.client).1.id) := by
  unfold process_transaction
  rcases get_account s tx.client with ⟨account, s1⟩
  dsimp only
  cases hlk : account.locked
  · simp only [hlk, Bool.false_eq_true, if_false]
    cases tx.type_ <;> dsimp only
    case Deposit =>
      cases tx.amount <;> exact Or.inr ⟨rfl, _, rfl, rfl⟩
    case Withdrawal =>
      cases tx.amount
      · exact Or.inr ⟨rfl, _, rfl, rfl⟩
      · dsimp only
        split
        · exact Or.inl rfl
        · exact Or.inr ⟨rfl, _, rfl, rfl⟩
    case Dispute =>
      cases kvGet s1.transactions tx.tx with
      | none => exact Or.inl rfl
      | some src =>
        dsimp only
        cases src.amount
        · exact Or.inr ⟨rfl, _, rfl, rfl⟩
        · dsimp only
          split
          · exact Or.inr ⟨rfl, _, rfl, rfl⟩
          · exact Or.inr ⟨rfl, _, rfl, rfl⟩
    case Resolve =>
      cases kvGet s1.transactions tx.tx with
      | none => exact Or.inl rfl
      | some src =>
        dsimp only
        cases src.amount
        · exact Or.inr ⟨rfl, _, rfl, rfl⟩
        · dsimp only
          split
          · exact Or.inr ⟨rfl, _, rfl, rfl⟩
          · exact Or.inr ⟨rfl, _, rfl, rfl⟩
    case Chargeback =>
      cases kvGet s1.transactions tx.tx with
      | none => exact Or.inl rfl
      | some src =>
        dsimp only
        cases src.amount
        · exact Or.inr ⟨rfl, _, rfl, rfl⟩
        · dsimp only
          split
          · exact Or.inr ⟨rfl, _, rfl, rfl⟩
          · split
            · exact Or.inr ⟨rfl, _, rfl, rfl⟩
            · exact Or.inr ⟨rfl, _, rfl, rfl⟩
  · simp only [hlk, if_true]
    exact Or.inl (by trivial)

theorem get_account_transactions_eq (s : ManagerState) (c : Nat) :
    (get_account s c).2.transactions = s.transactions := by
  unfold get_account
  cases kvGet s.accounts c <;> simp

theorem process_transactions_eq (s : ManagerState) (tx : Transaction) :
    (process_transaction s tx).2.transactions = s.transactions := by
  rcases process_state_cases s tx with h | ⟨-, a, h, -⟩ <;> rw [h] <;>
    simp [set_account, get_account_transactions_eq]

theorem Account.new_ok (c : Nat) : (Account.new c).ok :=
  ⟨rfl, le_refl 0, le_refl 0⟩

/-- The source's clamp pattern is a minimum. -/
theorem clamp_eq_min (a b : Int) : (if a > b then b else a) = min a b := by
  rw [min_def]
  split <;> split <;> omega

theorem Account.ok_mk (i : Nat) (av hd t : Int) (l : Bool)
    (h1 : t = av + hd) (h2 : 0 ≤ av) (h3 : 0 ≤ hd) :
    Account.ok ⟨i, av, hd, t, l⟩ := ⟨h1, h2, h3⟩

theorem get_account_chars (s : ManagerState) (c : Nat) (hA : accountsOK s) :
    (get_account s c).1.ok ∧ accountsOK (get_account s c).2 := by
  unfold get_account
  cases hget : kvGet s.accounts c with
  | some a => exact ⟨hA _ _ hget, hA⟩
  | none =>
      refine ⟨Account.new_ok c, ?_⟩
      intro q b hqb
      dsimp only at hqb
      rw [kvGet_kvSet] at hqb
      split at hqb
      · cases hqb
        exact Account.new_ok c
      · exact hA _ _ hqb

/-- The key preservation fact behind the global balance invariant: one
`process_transaction` call keeps every stored account well-formed, for any
ledger whose recorded amounts are non-negative. -/
theorem process_preserves_accountsOK (s : ManagerState) (tx : Transaction)
    (hA : accountsOK s) (hL : ledgerWF s) (htx : tx.wfAmount) :
    accountsOK (process_transaction s tx).2 := by
  obtain ⟨hok, hA1⟩ := get_account_chars s tx.client hA
  have hT1 : (get_account s tx.client).2.transactions = s.transactions :=
    get_account_transactions_eq s tx.client
  unfold process_transaction
  rcases hga : get_account s tx.client with ⟨account, s1⟩
  rw [hga] at hok hA1 hT1
  dsimp only at hok hA1 hT1 ⊢
  obtain ⟨hsum, hav, hheld⟩ := hok
  cases hlk : account.locked
  · simp only [hlk, Bool.false_eq_true, if_false]
    cases tx.type_ <;> dsimp only
    case Deposit =>
      cases ham : tx.amount with
      | none => exact accountsOK_set _ _ hA1 ⟨hsum, hav, hheld⟩
      | some amt =>
          have hamt : 0 ≤ amt := htx amt ham
          exact accountsOK_set _ _ hA1
            (Account.ok_mk _ _ _ _ _ (by omega) (by omega) (by omega))
    case Withdrawal =>
      cases ham : tx.amount with
      | none => exact accountsOK_set _ _ hA1 ⟨hsum, hav, hheld⟩
      | some amt =>
          have hamt : 0 ≤ amt := htx amt ham
          dsimp only
          split
          · exact hA1
          · next hge =>
              exact accountsOK_set _ _ hA1
                (Account.ok_mk _ _ _ _ _ (by omega) (by omega) (by omega))
    case Dispute =>
      cases hsrc : kvGet s1.transactions tx.tx with
      | none => exact hA1
      | some src =>
          have hw : src.wfAmount := hL tx.tx src (hT1 ▸ hsrc)
          dsimp only
          cases hsam : src.amount with
          | none => exact accountsOK_set _ _ hA1 ⟨hsum, hav, hheld⟩
          | some amt =>
              have hamt : 0 ≤ amt := hw amt hsam
              dsimp only
              split
              · set m := if amt > account.available then account.available
                  else amt with hm
                have hm0 : 0 ≤ m := by rw [hm]; split <;> omega
                have hm1 : m ≤ account.available := by rw [hm]; split <;> omega
                exact accountsOK_set _ _ hA1
                  (Account.ok_mk _ _ _ _ _ (by omega) (by omega) (by omega))
              · exact accountsOK_set _ _ hA1 ⟨hsum, hav, hheld⟩
    case Resolve =>
      cases hsrc : kvGet s1.transactions tx.tx with
      | none => exact hA1
      | some src =>
          have hw : src.wfAmount := hL tx.tx src (hT1 ▸ hsrc)
          dsimp only
          cases hsam : src.amount with
          | none => exact accountsOK_set _ _ hA1 ⟨hsum, hav, hheld⟩
          | some amt =>
              have hamt : 0 ≤ amt := hw amt hsam
              dsimp only
              split
              · set m := if amt > account.held then account.held
                  else amt with hm
                have hm0 : 0 ≤ m := by rw [hm]; split <;> omega
                have hm1 : m ≤ account.held := by rw [hm]; split <;> omega
                exact accountsOK_set _ _ hA1
                  (Account.ok_mk _ _ _ _ _ (by omega) (by omega) (by omega))
              · exact accountsOK_set _ _ hA1 ⟨hsum, hav, hheld⟩
    case Chargeback =>
      cases hsrc : kvGet s1.transactions tx.tx with
      | none => exact hA1
      | some src =>
          have hw : src.wfAmount := hL tx.tx src (hT1 ▸ hsrc)
          dsimp only
          cases hsam : src.amount with
          | none => exact accountsOK_set _ _ hA1 ⟨hsum, hav, hheld⟩
          | some amt =>
              have hamt : 0 ≤ amt := hw amt hsam
              dsimp only
              split
              · set m := if amt > account.held then account.held
                  else amt with hm
                have hm0 : 0 ≤ m := by rw [hm]; split <;> omega
                have hm1 : m ≤ account.held := by rw [hm]; split <;> omega
                exact accountsOK_set _ _ hA1
                  (Account.ok_mk _ _ _ _ _ (by omega) (by omega) (by omega))
              · split
                · exact accountsOK_set _ _ hA1
                    (Account.ok_mk _ _ _ _ _ (by omega) (by omega) (by omega))
                · exact accountsOK_set _ _ hA1 ⟨hsum, hav, hheld⟩
  · simp only [hlk, if_true]
    exact hA1

/-- Both the account invariant and ledger well-formedness hold in every
reachable state. -/
theorem reachable_ok (s : ManagerState) (h : Reachable s) :
    accountsOK s ∧ ledgerWF s := by
  induction h with
  | init =>
      constructor
      · intro c a hca
        simp [kvGet] at hca
      · intro k t hkt
        simp [kvGet] at hkt
  | store s k t hr hw ih =>
      constructor
      · intro c a hca
        exact ih.1 c a hca
      · intro q u hqu
        dsimp only at hqu
        rw [kvGet_kvSet] at hqu
        split at hqu
        · cases hqu
          exact hw
        · exact ih.2 _ _ hqu
  | process s tx hr hw ih =>
      refine ⟨process_preserves_accountsOK s tx ih.1 ih.2 hw, ?_⟩
      intro q u hqu
      rw [process_transactions_eq] at hqu
      exact ih.2 _ _ hqu

/-! ### Claims -/

/-- C1: in every state reachable by any sequence of `process_transaction`
calls (interleaved with pipeline ledger writes) starting from empty stores,
every stored account satisfies `total = available + held`, its held balance
is non-negative, and its available balance is never driven below zero. -/
theorem account_invariant_of_reachable (s : ManagerState) (h : Reachable s)
    (c : Nat) (a : Account) (ha : kvGet s.accounts c = some a) :
    a.total = a.available + a.held ∧ 0 ≤ a.held ∧ 0 ≤ a.available := by
  obtain ⟨hsum, hav, hheld⟩ := (reachable_ok s h).1 c a ha
  exact ⟨hsum, hheld, hav⟩

theorem account_invariant_of_reachable_witness :
    (Reachable stEx ∧ kvGet stEx.accounts 1 = some aEx) ∧
    (aEx.total = aEx.available + aEx.held ∧ 0 ≤ aEx.held ∧ 0 ≤ aEx.available) :=
  have hr : Reachable stEx :=
    Reachable.process ⟨[], []⟩ depositTx Reachable.init (by decide)
  ⟨⟨hr, by decide⟩, account_invariant_of_reachable stEx hr 1 aEx (by decide)⟩

/-- C2: whatever the transaction's type, if the account of its client is
locked, `process_transaction` returns `AccountLocked` and leaves both stores
(and hence every account field) exactly unchanged. -/
theorem locked_account_rejects_all (s : ManagerState) (tx : Transaction)
    (acct : Account) (hacc : kvGet s.accounts tx.client = some acct)
    (hlock : acct.locked = true) :
    process_transaction s tx = (Except.error Error.AccountLocked, s) := by
  unfold process_transaction
  rw [get_account_found s tx.client acct hacc]
  dsimp only
  rw [hlock]
  simp

theorem locked_account_rejects_all_witness :
    (kvGet stLocked.accounts 1 = some acctLocked ∧ acctLocked.locked = true) ∧
    process_transaction stLocked ⟨TxType.Withdrawal, 1, 2, some 100⟩ =
      (Except.error Error.AccountLocked, stLocked) :=
  ⟨⟨by decide, by decide⟩,
    locked_account_rejects_all stLocked ⟨TxType.Withdrawal, 1, 2, some 100⟩
      acctLocked (by decide) (by decide)⟩

/-- C6: a withdrawal of `a` on an unlocked account fails with
`InsufficientFunds` and changes nothing when `a` exceeds the available
balance; otherwise (including `a` equal to it) it succeeds and decreases
available and total by `a`. -/
theorem withdrawal_semantics (s : ManagerState) (tx : Transaction)
    (acct : Account) (a : Int)
    (hacc : kvGet s.accounts tx.client = some acct)
    (hlock : acct.locked = false)
    (hty : tx.type_ = TxType.Withdrawal)
    (hamt : tx.amount = some a) :
    (acct.available < a →
      process_transaction s tx = (Except.error Error.InsufficientFunds, s)) ∧
    (a ≤ acct.available →
      process_transaction s tx =
        (Except.ok (), set_account s
          { acct with available := acct.available - a,
                      total := acct.total - a })) := by
  unfold process_transaction
  rw [get_account_found s tx.client acct hacc, hty]
  dsimp only
  rw [hlock]
  simp only [Bool.false_eq_true, if_false]
  rw [hamt]
  dsimp only
  constructor
  · intro hlt
    rw [if_pos hlt]
  · intro hge
    rw [if_neg (not_lt.mpr hge)]

theorem withdrawal_semantics_witness :
    (kvGet stRich.accounts 1 = some acctRich ∧ acctRich.locked = false ∧
      (20 : Int) ≤ acctRich.available) ∧
    process_transaction stRich ⟨TxType.Withdrawal, 1, 3, some 20⟩ =
      (Except.ok (), set_account stRich
        { acctRich with available := acctRich.available - 20,
                        total := acctRich.total - 20 }) :=
  ⟨⟨by decide, by decide, by decide⟩,
    (withdrawal_semantics stRich ⟨TxType.Withdrawal, 1, 3, some 20⟩
      acctRich 20 (by decide) (by decide) rfl rfl).2 (by decide)⟩

/-- C4: a dispute on an unlocked account whose referenced transaction is a
ledger deposit with amount `amt` moves `min amt available` from available to
held, leaving total untouched; when the referenced transaction is a
withdrawal no balance field changes. -/
theorem dispute_semantics (s : ManagerState) (tx : Transaction)
    (acct : Account) (src : Transaction) (amt : Int)
    (hacc : kvGet s.accounts tx.client = some acct)
    (hlock : acct.locked = false)
    (hty : tx.type_ = TxType.Dispute)
    (hsrc : kvGet s.transactions tx.tx = some src)
    (hamt : src.amount = some amt) :
    (src.type_ = TxType.Deposit →
      process_transaction s tx =
        (Except.ok (), set_account s
          { acct with held := acct.held + min amt acct.available,
                      available := acct.available - min amt acct.available })) ∧
    (src.type_ = TxType.Withdrawal →
      process_transaction s tx = (Except.ok (), set_account s acct)) := by
  unfold process_transaction
  rw [get_account_found s tx.client acct hacc, hty]
  dsimp only
  rw [hlock]
  simp only [Bool.false_eq_true, if_false]
  rw [hsrc]
  dsimp only
  rw [hamt]
  dsimp only
  constructor
  · intro hdep
    rw [hdep]
    simp [clamp_eq_min]
  · intro hwd
    rw [hwd]
    simp

theorem dispute_semantics_witness :
    (kvGet stRich.accounts 1 = some acctRich ∧ acctRich.locked = false ∧
      kvGet stRich.transactions 1 = some ledgerDep ∧
      ledgerDep.amount = some 100 ∧ ledgerDep.type_ = TxType.Deposit) ∧
    process_transaction stRich ⟨TxType.Dispute, 1, 1, none⟩ =
      (Except.ok (), set_account stRich
        { acctRich with held := acctRich.held + min 100 acctRich.available,
                        available := acctRich.available - min 100 acctRich.available }) :=
  ⟨⟨by decide, by decide, by decide, by decide, by decide⟩,
    (dispute_semantics stRich ⟨TxType.Dispute, 1, 1, none⟩ acctRich ledgerDep 100
      (by decide) (by decide) rfl (by decide) (by decide)).1 (by decide)⟩

/-- C7: a resolve on an unlocked account whose referenced transaction is a
ledger deposit with amount `amt` releases `min amt held` from held back to
available, leaving total untouched; when the referenced transaction is a
withdrawal no account field changes. -/
theorem resolve_semantics (s : ManagerState) (tx : Transaction)
    (acct : Account) (src : Transaction) (amt : Int)
    (hacc : kvGet s.accounts tx.client = some acct)
    (hlock : acct.locked = false)
    (hty : tx.type_ = TxType.Resolve)
    (hsrc : kvGet s.transactions tx.tx = some src)
    (hamt : src.amount = some amt) :
    (src.type_ = TxType.Deposit →
      process_transaction s tx =
        (Except.ok (), set_account s
          { acct with held := acct.held - min amt acct.held,
                      available := acct.available + min amt acct.held })) ∧
    (src.type_ = TxType.Withdrawal →
      process_transaction s tx = (Except.ok (), set_account s acct)) := by
  unfold process_transaction
  rw [get_account_found s tx.client acct hacc, hty]
  dsimp only
  rw [hlock]
  simp only [Bool.false_eq_true, if_false]
  rw [hsrc]
  dsimp only
  rw [hamt]
  dsimp only
  constructor
  · intro hdep
    rw [hdep]
    simp [clamp_eq_min]
  · intro hwd
    rw [hwd]
    simp

theorem resolve_semantics_witness :
    (kvGet stRich.accounts 1 = some acctRich ∧ acctRich.locked = false ∧
      kvGet stRich.transactions 1 = some ledgerDep ∧
      ledgerDep.amount = some 100 ∧ ledgerDep.type_ = TxType.Deposit) ∧
    process_transaction stRich ⟨TxType.Resolve, 1, 1, none⟩ =
      (Except.ok (), set_account stRich
        { acctRich with held := acctRich.held - min 100 acctRich.held,
                        available := acctRich.available + min 100 acctRich.held }) :=
  ⟨⟨by decide, by decide, by decide, by decide, by decide⟩,
    (resolve_semantics stRich ⟨TxType.Resolve, 1, 1, none⟩ acctRich ledgerDep 100
      (by decide) (by decide) rfl (by decide) (by decide)).1 (by decide)⟩

/-- C3: a chargeback on an unlocked account whose referenced transaction is a
ledger deposit with amount `amt` removes `min amt held` from held and total,
leaves available unchanged, and locks the account; when the referenced
transaction is a withdrawal it adds the withdrawn amount back to available
and total, leaves held unchanged, and does not lock the account. -/
theorem chargeback_semantics (s : ManagerState) (tx : Transaction)
    (acct : Account) (src : Transaction) (amt : Int)
    (hacc : kvGet s.accounts tx.client = some acct)
    (hlock : acct.locked = false)
    (hty : tx.type_ = TxType.Chargeback)
    (hsrc : kvGet s.transactions tx.tx = some src)
    (hamt : src.amount = some amt) :
    (src.type_ = TxType.Deposit →
      process_transaction s tx =
        (Except.ok (), set_account s
          { acct with held := acct.held - min amt acct.held,
                      total := acct.total - min amt acct.held,
                      locked := true })) ∧
    (src.type_ = TxType.Withdrawal →
      process_transaction s tx =
        (Except.ok (), set_account s
          { acct with available := acct.available + amt,
                      total := acct.total + amt })) := by
  unfold process_transaction
  rw [get_account_found s tx.client acct hacc, hty]
  dsimp only
  rw [hlock]
  simp only [Bool.false_eq_true, if_false]
  rw [hsrc]
  dsimp only
  rw [hamt]
  dsimp only
  constructor
  · intro hdep
    rw [hdep]
    simp [clamp_eq_min]
  · intro hwd
    rw [hwd]
    simp

theorem chargeback_semantics_witness :
    (kvGet stRich.accounts 1 = some acctRich ∧ acctRich.locked = false ∧
      kvGet stRich.transactions 2 = some ledgerWd ∧
      ledgerWd.amount = some 40 ∧ ledgerWd.type_ = TxType.Withdrawal) ∧
    process_transaction stRich ⟨TxType.Chargeback, 1, 2, none⟩ =
      (Except.ok (), set_account stRich
        { acctRich with available := acctRich.available + 40,
                        total := acctRich.total + 40 }) :=
  ⟨⟨by decide, by decide, by decide, by decide, by decide⟩,
    (chargeback_semantics stRich ⟨TxType.Chargeback, 1, 2, none⟩ acctRich ledgerWd 40
      (by decide) (by decide) rfl (by decide) (by decide)).2 (by decide)⟩

/-- C8: on an unlocked account with nothing held, a resolve or a chargeback
referencing an existing ledger deposit leaves available, held and total
unchanged — the clamp against `held = 0` yields a release/take of 0 (the
resolve is a complete no-op; the chargeback still sets the lock flag, which
is not a balance). -/
theorem undisputed_resolve_chargeback_noop (s : ManagerState)
    (tx : Transaction) (acct : Account) (src : Transaction) (amt : Int)
    (hacc : kvGet s.accounts tx.client = some acct)
    (hlock : acct.locked = false)
    (hheld : acct.held = 0)
    (hsrc : kvGet s.transactions tx.tx = some src)
    (hsty : src.type_ = TxType.Deposit)
    (hamt : src.amount = some amt)
    (hnn : 0 ≤ amt) :
    (tx.type_ = TxType.Resolve →
      process_transaction s tx = (Except.ok (), set_account s acct)) ∧
    (tx.type_ = TxType.Chargeback →
      process_transaction s tx =
        (Except.ok (), set_account s { acct with locked := true })) := by
  have hm : (if amt > acct.held then acct.held else amt) = 0 := by
    rw [hheld]
    split <;> omega
  constructor
  · intro hty
    unfold process_transaction
    rw [get_account_found s tx.client acct hacc, hty]
    dsimp only
    rw [hlock]
    simp only [Bool.false_eq_true, if_false]
    rw [hsrc]
    dsimp only
    rw [hamt]
    dsimp only
    rw [hsty]
    simp [hm]
    rw [← hlock]
  · intro hty
    unfold process_transaction
    rw [get_account_found s tx.client acct hacc, hty]
    dsimp only
    rw [hlock]
    simp only [Bool.false_eq_true, if_false]
    rw [hsrc]
    dsimp only
    rw [hamt]
    dsimp only
    rw [hsty]
    simp [hm]

theorem undisputed_resolve_chargeback_noop_witness :
    (kvGet stZeroHeld.accounts 1 = some acctZeroHeld ∧
      acctZeroHeld.locked = false ∧ acctZeroHeld.held = 0 ∧
      kvGet stZeroHeld.transactions 1 = some ledgerDep ∧
      ledgerDep.type_ = TxType.Deposit ∧ ledgerDep.amount = some 100) ∧
    process_transaction stZeroHeld ⟨TxType.Resolve, 1, 1, none⟩ =
      (Except.ok (), set_account stZeroHeld acctZeroHeld) :=
  ⟨⟨by decide, by decide, by decide, by decide, by decide, by decide⟩,
    (undisputed_resolve_chargeback_noop stZeroHeld ⟨TxType.Resolve, 1, 1, none⟩
      acctZeroHeld ledgerDep 100 (by decide) (by decide) (by decide)
      (by decide) (by decide) (by decide) (by decide)).1 rfl⟩

/-- C9: a chargeback on an unlocked account referencing an existing ledger
deposit while the account holds nothing moves no money yet still sets the
locked flag and persists the locked account in the account store. -/
theorem chargeback_locks_even_when_held_zero (s : ManagerState)
    (tx : Transaction) (acct : Account) (src : Transaction) (amt : Int)
    (hacc : kvGet s.accounts tx.client = some acct)
    (hid : acct.id = tx.client)
    (hlock : acct.locked = false)
    (hheld : acct.held = 0)
    (hty : tx.type_ = TxType.Chargeback)
    (hsrc : kvGet s.transactions tx.tx = some src)
    (hsty : src.type_ = TxType.Deposit)
    (hamt : src.amount = some amt)
    (hnn : 0 ≤ amt) :
    process_transaction s tx =
      (Except.ok (), set_account s { acct with locked := true }) ∧
    kvGet (process_transaction s tx).2.accounts tx.client =
      some { acct with locked := true } := by
  have hm : (if amt > acct.held then acct.held else amt) = 0 := by
    rw [hheld]
    split <;> omega
  have hmain : process_transaction s tx =
      (Except.ok (), set_account s { acct with locked := true }) := by
    unfold process_transaction
    rw [get_account_found s tx.client acct hacc, hty]
    dsimp only
    rw [hlock]
    simp only [Bool.false_eq_true, if_false]
    rw [hsrc]
    dsimp only
    rw [hamt]
    dsimp only
    rw [hsty]
    simp [hm]
  refine ⟨hmain, ?_⟩
  rw [hmain]
  dsimp only [set_account]
  rw [show ({ acct with locked := true } : Account).id = tx.client from hid]
  rw [kvGet_kvSet]
  simp

theorem chargeback_locks_even_when_held_zero_witness :
    (kvGet stZeroHeld.accounts 1 = some acctZeroHeld ∧ acctZeroHeld.id = 1 ∧
      acctZeroHeld.locked = false ∧ acctZeroHeld.held = 0 ∧
      kvGet stZeroHeld.transactions 1 = some ledgerDep ∧
      ledgerDep.type_ = TxType.Deposit ∧ ledgerDep.amount = some 100) ∧
    (process_transaction stZeroHeld ⟨TxType.Chargeback, 1, 1, none⟩ =
      (Except.ok (), set_account stZeroHeld { acctZeroHeld with locked := true }) ∧
    kvGet (process_transaction stZeroHeld ⟨TxType.Chargeback, 1, 1, none⟩).2.accounts 1 =
      some { acctZeroHeld with locked := true }) :=
  ⟨⟨by decide, by decide, by decide, by decide, by decide, by decide, by decide⟩,
    chargeback_locks_even_when_held_zero stZeroHeld ⟨TxType.Chargeback, 1, 1, none⟩
      acctZeroHeld ledgerDep 100 (by decide) (by decide) (by decide) (by decide)
      rfl (by decide) (by decide) (by decide) (by decide)⟩

/-- C5 counterexample: a dispute by a client with no account, referencing a
transaction id absent from the ledger, fails with `NotFound`, yet the account
store after the call differs from the store before it (the lazily created
zero account was persisted). -/
theorem failed_tx_can_create_account :
    (process_transaction ⟨[], []⟩ orphanDispute).1 = Except.error Error.NotFound ∧
    (process_transaction ⟨[], []⟩ orphanDispute).2 ≠ (⟨[], []⟩ : ManagerState) := by
  decide

/-- C5 amended: when `process_transaction` fails (`AccountLocked`,
`InsufficientFunds`, or `NotFound` from a dispute/resolve/chargeback whose
referenced id is absent), the ledger store is unchanged and the account
store is unchanged as well, except that when the client had no account a
fresh zero account has been created and persisted for it. -/
theorem failure_side_effects_only_lazy_creation (s : ManagerState)
    (tx : Transaction) (e : Error)
    (h : (process_transaction s tx).1 = Except.error e) :
    (process_transaction s tx).2.transactions = s.transactions ∧
    ((process_transaction s tx).2 = s ∨
      (kvGet s.accounts tx.client = none ∧
        (process_transaction s tx).2 =
          ⟨kvSet s.accounts tx.client (Account.new tx.client),
            s.transactions⟩)) := by
  refine ⟨process_transactions_eq s tx, ?_⟩
  rcases process_state_cases s tx with hst | ⟨hok, -, -, -⟩
  · cases hget : kvGet s.accounts tx.client with
    | some a =>
        left
        rw [hst, get_account_found s tx.client a hget]
    | none =>
        right
        exact ⟨rfl, by rw [hst, get_account_fresh s tx.client hget]⟩
  · rw [hok] at h
    cases h

theorem failure_side_effects_only_lazy_creation_witness :
    (process_transaction ⟨[], []⟩ orphanDispute).1 = Except.error Error.NotFound ∧
    ((process_transaction ⟨[], []⟩ orphanDispute).2.transactions =
        (⟨[], []⟩ : ManagerState).transactions ∧
      ((process_transaction ⟨[], []⟩ orphanDispute).2 = (⟨[], []⟩ : ManagerState) ∨
        (kvGet (⟨[], []⟩ : ManagerState).accounts orphanDispute.client = none ∧
          (process_transaction ⟨[], []⟩ orphanDispute).2 =
            ⟨kvSet (⟨[], []⟩ : ManagerState).accounts orphanDispute.client
              (Account.new orphanDispute.client),
              (⟨[], []⟩ : ManagerState).transactions⟩))) :=
  ⟨by decide,
    failure_side_effects_only_lazy_creation ⟨[], []⟩ orphanDispute
      Error.NotFound (by decide)⟩

/-- C10: when a transaction names a client with no account, a zero account is
created and persisted for that client; the account store holds an account for
the client after the call in every case, and when the transaction itself
fails the persisted account is exactly the zero account. -/
theorem fresh_account_persisted (s : ManagerState) (tx : Transaction)
    (h : kvGet s.accounts tx.client = none) :
    (∃ a, kvGet (process_transaction s tx).2.accounts tx.client = some a) ∧
    ∀ e, (process_transaction s tx).1 = Except.error e →
      kvGet (process_transaction s tx).2.accounts tx.client =
        some (Account.new tx.client) := by
  have hga := get_account_fresh s tx.client h
  rcases process_state_cases s tx with hst | ⟨hok, a, hst, hid⟩
  · have hget : kvGet (process_transaction s tx).2.accounts tx.client =
        some (Account.new tx.client) := by
      rw [hst, hga]
      dsimp only
      rw [kvGet_kvSet]
      simp
    exact ⟨⟨_, hget⟩, fun e he => hget⟩
  · have hid' : a.id = tx.client := by
      rw [hga] at hid
      exact hid
    have hget : kvGet (process_transaction s tx).2.accounts tx.client =
        some a := by
      rw [hst]
      dsimp only [set_account]
      rw [hid', kvGet_kvSet]
      simp
    refine ⟨⟨a, hget⟩, fun e he => ?_⟩
    rw [hok] at he
    cases he

theorem fresh_account_persisted_witness :
    kvGet (⟨[], []⟩ : ManagerState).accounts orphanDispute.client = none ∧
    (process_transaction ⟨[], []⟩ orphanDispute).1 = Except.error Error.NotFound ∧
    kvGet (process_transaction ⟨[], []⟩ orphanDispute).2.accounts
        orphanDispute.client = some (Account.new orphanDispute.client) :=
  ⟨by decide, by decide,
    (fresh_account_persisted ⟨[], []⟩ orphanDispute (by decide)).2
      Error.NotFound (by decide)⟩

end TxEngine
